import Mathlib

/-!
Verification development for the `gitlab_arc_fs` package (ARCfs): a shallow
embedding in Lean 4 of the data model and operations of
`src/gitlab_arc_fs/{utils,lfs_file,gitlab_filestream,arc_fs}.py`, together
with theorems settling the behavioural claims about that code.

Conventions used throughout:
* Python byte strings are `List Nat`; Python strings are `String` or
  `List Char` (the latter where character-level reasoning is needed).
* Python dicts are association lists with first-match lookup (`alookup`)
  and in-place-replace-or-append update (`upsert`), which mirrors
  insertion-ordered `dict.update` semantics.
* SHA-256 itself is out of scope of the package (it comes from `hashlib`),
  so the digest is an arbitrary function `hex : List Nat → String`; what is
  modelled faithfully is `hashlib`'s streaming interface: `update` appends
  bytes to the absorbed stream, `hexdigest` hashes the absorbed stream.
* Fallible Python code becomes `Except`; a raised exception is an `.error`.
-/

/-! ## Association lists with Python dict semantics -/

def alookup {κ α : Type} [DecidableEq κ] (k : κ) : List (κ × α) → Option α
  | [] => none
  | (k', v) :: t => if k' = k then some v else alookup k t

def upsert {κ α : Type} [DecidableEq κ] (k : κ) (v : α) : List (κ × α) → List (κ × α)
  | [] => [(k, v)]
  | (k', v') :: t => if k' = k then (k, v) :: t else (k', v') :: upsert k v t

/-! ## The upload hashing pipeline (`utils.compute_size_sha`, `LFSFile`)

`LFSFile` (lfs_file.py) buffers written bytes in a spooled temporary file and
feeds every `write` into a `hashlib.sha256` object.  `close` computes the
size by seeking to the end (`_get_size`) and commits a pointer file whose
content is built by `_commit_pointer_file`.  `ARCfs.upload` instead calls
`utils.compute_size_sha`, which re-reads the whole file in 10 MiB chunks.
-/

namespace Pointer

/-- State of a `hashlib.sha256()` object: the stream of bytes absorbed so
far.  `update` appends; `hexdigest` applies the digest to the stream. -/
structure Sha256Ctx where
  absorbed : List Nat
deriving DecidableEq, Repr

def shaUpdate (c : Sha256Ctx) (data : List Nat) : Sha256Ctx :=
  ⟨c.absorbed ++ data⟩

def shaHexdigest (hex : List Nat → String) (c : Sha256Ctx) : String :=
  hex c.absorbed

/-- The in-memory state of an `LFSFile` opened for writing: the spooled
buffer and the running hash object (`self.shasum`). -/
structure LFS where
  buf : List Nat
  sha : Sha256Ctx
deriving DecidableEq, Repr

def lfsInit : LFS := ⟨[], ⟨[]⟩⟩

/-- Model of `LFSFile.write`: update the running hash, then append to the buffer. -/
def lfsWrite (f : LFS) (data : List Nat) : LFS :=
  { buf := f.buf ++ data, sha := shaUpdate f.sha data }

def lfsWriteAll (f : LFS) (ws : List (List Nat)) : LFS :=
  ws.foldl lfsWrite f

/-- Model of `LFSFile._get_size`: seek to the end and `tell` — the buffer length. -/
def lfsGetSize (f : LFS) : Nat := f.buf.length

/-- The pointer file content built by `LFSFile._commit_pointer_file`:
`f"version https://git-lfs.github.com/spec/v1\noid sha256:{sha}\nsize {size}\n"`. -/
def pointerContent (hex : List Nat → String) (sha : Sha256Ctx) (size : Nat) : String :=
  "version https://git-lfs.github.com/spec/v1\n" ++ "oid sha256:" ++
    shaHexdigest hex sha ++ "\nsize " ++ toString size ++ "\n"

/-- The pointer content committed by `LFSFile.close`, which passes
`self.shasum` and `self._get_size()` to `_commit_pointer_file`. -/
def lfsCloseCommitContent (hex : List Nat → String) (f : LFS) : String :=
  pointerContent hex f.sha (lfsGetSize f)

/-- Split a list into chunks of `n` elements (the last may be shorter),
as `iter(lambda: file.read(n), b'')` enumerates a file's content. -/
def chunkify (n : Nat) : List Nat → List (List Nat)
  | [] => []
  | x :: xs => (x :: xs.take (n - 1)) :: chunkify n (xs.drop (n - 1))
termination_by l => l.length
decreasing_by simp [List.length_drop]; omega

/-- Model of `utils.compute_size_sha`: absorb the file content in 10 MiB chunks into
a fresh sha256 object, then read the size by seek-to-end/tell.  Returns the
`(size, shasum)` pair of the returned `info` dict. -/
def computeSizeSha (c : List Nat) : Nat × Sha256Ctx :=
  let sha := (chunkify (1024 * 1024 * 10) c).foldl shaUpdate ⟨[]⟩
  (c.length, sha)

/-- The pointer content committed by `ARCfs.upload`, which passes
`info["shasum"]` and `info["size"]` from `compute_size_sha` to
`LFSFile._commit_pointer_file`. -/
def uploadCommitContent (hex : List Nat → String) (c : List Nat) : String :=
  pointerContent hex ((computeSizeSha c).2) ((computeSizeSha c).1)

end Pointer

/-! ## Control flow of `LFSFile.close` (lfs_file.py, lines 77-116)

`close` computes the size, creates a branch, uploads the LFS object, and then
runs pointer commit / `.gitattributes` patch / merge request inside a
`try: ... except JSONDecodeError: pass` block.  Each remote step is modelled
by its outcome (an `Except`), provided by a `CloseWorld` record.
-/

namespace Close

inductive PyExc where
  | jsonDecode
  | other
deriving DecidableEq, Repr

/-- Outcomes of the remote steps performed during `LFSFile.close`. -/
structure CloseWorld where
  branchResp : Except PyExc Unit
  uploadNegotiation : Except PyExc Unit
  commitPointer : Except PyExc Unit
  modifyGitattributes : Except PyExc Unit
  createMergeRequest : Except PyExc Unit

/-- Model of `LFSFile.close`: branch creation and LFS upload run unprotected; the
three write-phase steps run under `except JSONDecodeError: pass`. -/
def lfsClose (w : CloseWorld) : Except PyExc Unit :=
  match w.branchResp with
  | .error e => .error e
  | .ok _ =>
    match w.uploadNegotiation with
    | .error e => .error e
    | .ok _ =>
      let phase3 : Except PyExc Unit := do
        w.commitPointer
        w.modifyGitattributes
        w.createMergeRequest
      match phase3 with
      | .ok _ => .ok ()
      | .error e => if e = .jsonDecode then .ok () else .error e

end Close

/-! ## Default branch resolution (`FileStreamHandler._get_default_branch`)

After paginating the branch listing into one list, the code runs
`for branch in reversed(branches): if branch["default"]: name; break`.
If no branch carries the flag, `default_branch` is never bound (a
`NameError` in Python) — modelled by `none`.
-/

namespace Branches

structure Branch where
  name : String
  /-- the `"default"` field of the branch JSON record -/
  defaultFlag : Bool
deriving DecidableEq, Repr

def getDefaultBranch (branches : List Branch) : Option String :=
  (branches.reverse.find? (fun b => b.defaultFlag)).map Branch.name

end Branches

/-! ## Metadata probing (`FileStreamHandler._get_gitlab_metadata`,
`ARCfs._retrieve_metadata`)

The probe issues a GET with redirects disabled; on a 301/302 it follows
exactly one hop to the `Location` header.  A terminal 404 returns `None`.
Otherwise the size comes from `X-Gitlab-Size` (no redirect) or
`Content-Length` (redirect), falling back to re-fetching the pointer file
text without `&lfs=true` and scanning its lines for a `size <value>` token.
The HTTP world is a function from URL to response; header values and the
parsed size are strings, exactly as in the Python code.
-/

namespace Probe

structure HResp where
  status : Nat
  headers : List (String × String)
  body : String

abbrev World := String → HResp

def hget (hs : List (String × String)) (k : String) : Option String :=
  (hs.find? (fun kv => kv.1 = k)).map (fun kv => kv.2)

inductive ProbeErr where
  /-- Python `headers.get('Location')` returned `None` and `session.get(None)` blew up -/
  | missingLocation
  /-- Python `headers['X-Gitlab-Size']` raised `KeyError` -/
  | keyError
  /-- no `size` line was found, so the local variable `size` is unbound -/
  | unboundSize
deriving DecidableEq, Repr

structure FInfo where
  name : String
  size : String
deriving DecidableEq, Repr

/-- Split on the first occurrence of a space. -/
def splitOnceSpace : List Char → Option (List Char × List Char)
  | [] => none
  | c :: cs =>
    if c = ' ' then some ([], cs)
    else (splitOnceSpace cs).map (fun p => (c :: p.1, p.2))

/-- Python `line.split(" ", 2)`: at most three fields. -/
def pySplitSpace2 (l : List Char) : List (List Char) :=
  match splitOnceSpace l with
  | none => [l]
  | some (a, r) =>
    match splitOnceSpace r with
    | none => [a, r]
    | some (b, r2) => [a, b, r2]

/-- The pointer-file scan: `(key, value) = line.split(" ", 2)` succeeds only
when the split has exactly two fields (else the `ValueError` is swallowed);
each `size` line overwrites `size`, so the last one wins. -/
def parseSizeLines (lines : List String) : Option String :=
  lines.foldl
    (fun acc line =>
      match pySplitSpace2 line.data with
      | [k, v] => if k = "size".data then some (String.mk v) else acc
      | _ => acc)
    none

/-- Model of `FileStreamHandler._get_gitlab_metadata` for one URL. -/
def getGitlabMetadata (world : World) (url : String) (name : String) :
    Except ProbeErr (Option FInfo) :=
  let r1 := world url
  let step : Except ProbeErr (Nat × List (String × String) × Bool) :=
    if r1.status = 301 ∨ r1.status = 302 then
      match hget r1.headers ("Location") with
      | none => .error .missingLocation
      | some loc =>
        let r2 := world loc
        .ok (r2.status, r2.headers, true)
    else .ok (r1.status, r1.headers, false)
  match step with
  | .error e => .error e
  | .ok (status, headers, redirected) =>
    if 302 ≤ status ∧ status = 404 then .ok none
    else
      let sizeE : Except ProbeErr String :=
        if redirected = false then
          match hget headers ("X-Gitlab-Size") with
          | some v => .ok v
          | none => .error .keyError
        else
          match hget headers ("Content-Length") with
          | some v => .ok v
          | none =>
            let r3 := world (url.replace ("&lfs=true") "")
            match parseSizeLines (r3.body.splitOn ("\n")) with
            | some v => .ok v
            | none => .error .unboundSize
      match sizeE with
      | .error e => .error e
      | .ok size => .ok (some ⟨name, size⟩)

/-- The terminal status a probe of `url` observes: the first status, or the
redirect target's status after one hop. -/
def terminalStatus (world : World) (url : String) : Option Nat :=
  let r1 := world url
  if r1.status = 301 ∨ r1.status = 302 then
    (hget r1.headers ("Location")).map (fun loc => (world loc).status)
  else some r1.status

/-- Model of `ARCfs._retrieve_metadata`: probe each gathered path concurrently and
zip the results back into a mapping keyed by path (`mkUrl` is
`FileStreamHandler.construct_url`, `nameOf` is `path.parts[-1]`). -/
def retrieveMetadata (world : World) (mkUrl : String → String)
    (nameOf : String → String) (paths : List String) :
    List (String × Except ProbeErr (Option FInfo)) :=
  paths.map (fun p => (p, getGitlabMetadata world (mkUrl p) (nameOf p)))

end Probe

/-! ## Path resolution (`ARCfs._get_repo_id_path`, arc_fs.py lines 342-371)

Character-level model.  The code maps `"."`/`"./"` to `"/"`, strips leading
and trailing `"/"` from every other path, wraps the result in
`pathlib.Path`, reads `parts[0]` (an uncaught `IndexError` when the parts
tuple is empty, e.g. for the empty string, whose `Path` is `.` with no
parts), and looks the first segment up in `repos_dictionary` (keys are
`Path` objects, hence compared by their parts).  A failed lookup makes
`.get(...)` return `None`, so `.get("id")` raises `AttributeError`, which is
caught and turned into `(None, None)`.  The repository records carry an
`"id"`; the synthetic root record for `"/"` does not, so its value is
`none`.
-/

namespace Resolve

/-- Remove leading `'/'` characters (the leading half of `str.strip("/")`). -/
def lstripSlash (s : List Char) : List Char := s.dropWhile (fun c => c = '/')

/-- Remove trailing `'/'` characters (the trailing half of `str.strip("/")`). -/
def rstripSlash : List Char → List Char
  | [] => []
  | c :: cs =>
    match rstripSlash cs with
    | [] => if c = '/' then [] else [c]
    | r => c :: r

def stripSlashes (s : List Char) : List Char := rstripSlash (lstripSlash s)

/-- Split a character list on `'/'`. -/
def splitSlash : List Char → List (List Char)
  | [] => [[]]
  | c :: cs =>
    if c = '/' then [] :: splitSlash cs
    else
      match splitSlash cs with
      | [] => [[c]]
      | h :: t => (c :: h) :: t

/-- Model of `pathlib.PurePosixPath(s).parts`: split on `'/'`, drop empty components
and single dots; a leading `'/'` becomes the root part `"/"`.  (The inputs
fed to `Path` here are either exactly `"/"` or already stripped of slashes,
so the POSIX double-slash-root quirk is unreachable.) -/
def pathParts (s : List Char) : List (List Char) :=
  let comps := (splitSlash s).filter (fun c => ¬(c = [] ∨ c = ['.']))
  if s.head? = some '/' then ['/'] :: comps else comps

/-- The `"."`/`"./"` aliasing and slash stripping at the top of
`_get_repo_id_path`. -/
def normalizePath (path : List Char) : List Char :=
  let path := if path = ['.'] ∨ path = ['.', '/'] then ['/'] else path
  if path ≠ ['/'] then stripSlashes path else path

/-- The catalog snapshot `repos_dictionary`: keys are the parts of the
formatted display path, values are the record's `"id"` (`none` for the
synthetic root record). -/
abbrev Catalog := List (List (List Char) × Option Nat)

inductive ResolveErr where
  /-- Python `path.parts[0]` on an empty parts tuple -/
  | indexError
deriving DecidableEq, Repr

/-- Model of `ARCfs._get_repo_id_path`. -/
def getRepoIdPath (cat : Catalog) (path : List Char) :
    Except ResolveErr (Option Nat × Option (List Char)) :=
  match (pathParts (normalizePath path)).head? with
  | none => .error .indexError
  | some root =>
    match alookup (pathParts root) cat with
    | some id? => .ok (id?, some root)
    | none => .ok (none, none)

end Resolve

/-! ## Double-extension cleanup (`utils.clean_file_ext`, `ARCfs.openbin`)

Paths are modelled structurally: directory components, a final-name stem
(no dot, no slash, non-empty, not starting with a dot) and the list of
extension components (each without its dot).  On such well-formed paths the
`pathlib` operations used by the code act as follows: `suffixes` maps each
component `e` to `'.' ++ e`; `stem` drops the last component (keeping it in
the name); `with_suffix(s)` replaces the last component by the components
of `s`; `with_suffix("")` drops the last component; `Path(name)` of a bare
file name has no directory components.
-/

namespace Ext

structure PyPath where
  dirs : List (List Char)
  stem : List Char
  exts : List (List Char)
deriving DecidableEq, Repr

def pySuffixes (p : PyPath) : List (List Char) :=
  p.exts.map (fun e => '.' :: e)

/-- Model of `path.with_suffix("")`: drop the last extension component. -/
def pyWithSuffixEmpty (p : PyPath) : PyPath :=
  ⟨p.dirs, p.stem, p.exts.dropLast⟩

/-- Model of `path.with_suffix(s)` for a suffix whose components are `es`: replace
the last extension component by `es` (append when there is none). -/
def pyWithSuffix (p : PyPath) (es : List (List Char)) : PyPath :=
  ⟨p.dirs, p.stem, p.exts.dropLast ++ es⟩

/-- Model of `Path(path.stem)`: the final name minus its last suffix, re-parsed as a
bare path (no directory components). -/
def pathOfStem (p : PyPath) : PyPath :=
  ⟨[], p.stem, p.exts.dropLast⟩

/-- The `while path.suffix: path = path.with_suffix("")` loop of
`clean_file_ext`, with the number of extensions as fuel. -/
def stripLoop : Nat → PyPath → PyPath
  | 0, p => p
  | fuel + 1, p =>
    match p.exts with
    | [] => p
    | _ :: _ => stripLoop fuel (pyWithSuffixEmpty p)

def stripAllSuffixes (p : PyPath) : PyPath := stripLoop p.exts.length p

/-- Model of `list(dict.fromkeys(xs))`: keep the first occurrence of each element,
in order. -/
def dedupFirstAux {α : Type} [DecidableEq α] (seen : List α) : List α → List α
  | [] => []
  | a :: t => if a ∈ seen then dedupFirstAux seen t else a :: dedupFirstAux (a :: seen) t

def dedupFirst {α : Type} [DecidableEq α] (l : List α) : List α :=
  dedupFirstAux [] l

/-- Model of `utils.clean_file_ext`: dedupe the suffix list, strip all suffixes,
then re-attach the joined deduped suffixes via `with_suffix`. -/
def cleanFileExt (p : PyPath) : PyPath :=
  pyWithSuffix (stripAllSuffixes p) (dedupFirst p.exts)

/-- The inline cleanup in `ARCfs.openbin` (arc_fs.py lines 881-885): when
there are at least two suffixes and the first two are equal, rebuild the
path as `Path(path.stem).with_suffix(path.suffixes[1])`. -/
def openbinCollapse (p : PyPath) : PyPath :=
  match p.exts with
  | e1 :: e2 :: _ =>
    if ('.' :: e1) = ('.' :: e2) then pyWithSuffix (pathOfStem p) [e2] else p
  | _ => p

end Ext

/-! ## The ARCfs cache state machine (arc_fs.py)

State-level model of the cache-mutating operations of the `ARCfs` class:
`_construct_tree_dict`, `_check_ressource`, `isdir`, `_gather_file_paths`,
`_build_directory_info`, `getinfo`, `makedir` and `upload`.  Paths are the
`parts` tuples of the (already normalised) `pathlib.Path` keys the code
uses; the string-level normalisation (`.`/`./`/`""` to `/`, slash
stripping) that every public entry point performs first is modelled
character-exactly in the `Resolve` namespace.

One Python quirk is kept: `_check_ressource` tests
`path in self.repo_trees_dict.get(id)` with `path` a `str`, while the keys
of that dict are `PosixPath` objects — in Python a `str` never equals a
`PosixPath`, so the membership test is always false.  Dictionary keys are
therefore modelled by the sum `PyKey` of strings and paths.

The remote service is a `Remote` record: the recursive tree listing per
repository id and a per-file size oracle used by the metadata probes (the
probes themselves are modelled in the `Probe` namespace).  `fetchCount`
counts the remote tree fetch sequences `_construct_tree_dict` performs.
-/

namespace Fs

/-- One part of a `PosixPath`. -/
abbrev Seg := String

/-- A `PosixPath` as its parts tuple (`["/"]` for the root path). -/
abbrev PathParts := List Seg

/-- A Python dictionary key: either a `str` or a `PosixPath`.  Values of
different branches are never equal, exactly as in Python. -/
inductive PyKey where
  | str (s : String)
  | path (p : PathParts)
deriving DecidableEq, Repr

/-- A value of `repo_trees_dict[id]`: `{"is_dir": bool, "name": str}`. -/
structure TreeEntry where
  isDir : Bool
  name : Seg
deriving DecidableEq, Repr

abbrev RepoTree := List (PyKey × TreeEntry)

/-- An `fs.Info` record as far as this model needs it: directory infos carry
a name, file infos a name and the probed size. -/
inductive Info where
  | dir (name : Seg)
  | file (name : Seg) (size : Nat)
deriving DecidableEq, Repr

/-- The mutable caches of an `ARCfs` instance, plus a ghost counter of
remote tree fetches. -/
structure State where
  trees : List (Nat × RepoTree)
  accessed : List Nat
  infos : List (PathParts × Info)
  fetchCount : Nat
deriving DecidableEq, Repr

/-- One element of a repository's recursive tree listing: relative path
parts, the `"tree"`/`"blob"` type discriminator, and the base name. -/
structure RemoteEntry where
  path : PathParts
  ty : String
  name : Seg

/-- The remote service: tree listings and the file-size oracle behind the
metadata probes of `_retrieve_metadata`. -/
structure Remote where
  tree : Nat → List RemoteEntry
  fileSize : PathParts → Nat

/-- The catalog snapshot `repos_dictionary`: display-path parts mapped to
the record's `"id"` (`none` for the synthetic root record `"/"`). -/
structure Catalog where
  entries : List (PathParts × Option Nat)

/-- Model of `set.add` on `accesed_repositories`. -/
def addOnce (id : Nat) (l : List Nat) : List Nat :=
  if id ∈ l then l else id :: l

/-- Model of `ARCfs._construct_tree_dict`: fetch the full listing, prefix every path
with the repository's display segment, tag directories by the `"tree"`
discriminator, add a synthetic entry for the repository root, and commit the
whole dict at once. -/
def constructTreeDict (remote : Remote) (repoId : Nat) (repoSeg : Seg)
    (s : State) : State :=
  let d0 : RepoTree := (remote.tree repoId).foldl
    (fun d e => upsert (PyKey.path (repoSeg :: e.path)) ⟨e.ty = "tree", e.name⟩ d) []
  let d : RepoTree := upsert (PyKey.path [repoSeg]) ⟨true, repoSeg⟩ d0
  { trees := upsert repoId d s.trees
    accessed := addOnce repoId s.accessed
    infos := s.infos
    fetchCount := s.fetchCount + 1 }

/-- Model of `ARCfs._get_repo_id_path` at parts level (the character-level model is
`Resolve.getRepoIdPath`; the empty-parts `IndexError` case is unreachable
for the normalised non-empty paths these operations handle). -/
def resolveP (cat : Catalog) (p : PathParts) : Option Nat × Option Seg :=
  match p.head? with
  | none => (none, none)
  | some r =>
    match alookup [r] cat.entries with
    | some id? => (id?, some r)
    | none => (none, none)

/-- The `if id not in self.repo_trees_dict: self._construct_tree_dict(...)`
guard used by `_check_ressource`, `_build_directory_info`,
`_gather_file_paths`, `listdir` and `isdir`. -/
def ensureBuilt (remote : Remote) (repoId : Nat) (repoSeg : Seg) (s : State) :
    State :=
  if (alookup repoId s.trees).isSome then s
  else constructTreeDict remote repoId repoSeg s

/-- The `if id not in self.accesed_repositories: ...` guard used by
`getinfo`. -/
def ensureBuiltAcc (remote : Remote) (repoId : Nat) (repoSeg : Seg)
    (s : State) : State :=
  if repoId ∈ s.accessed then s
  else constructTreeDict remote repoId repoSeg s

inductive Err where
  | resourceNotFound
  | directoryExpected
  | fileExists
  | directoryExists
  /-- a remote call failed hard, e.g. `_construct_tree_dict(None, None)` -/
  | httpError
  /-- Python `None.update(...)` / `None.get(...)` -/
  | attributeError
  /-- Python `self.repo_trees_dict[id][Path(path)]` on a missing key -/
  | keyError
deriving DecidableEq, Repr

/-- Model of `str(PosixPath(*p))` for the relative paths handled here. -/
def renderParts (p : PathParts) : String :=
  String.intercalate ("/") p

/-- Model of `ARCfs._check_ressource`.  The final membership test compares the `str`
argument against `PosixPath` keys, so it never succeeds. -/
def checkRessource (remote : Remote) (cat : Catalog) (s : State)
    (p : PathParts) : Except Err (Bool × State) :=
  match resolveP cat p with
  | (some id, seg?) =>
    let s := ensureBuilt remote id (seg?.getD ("")) s
    let tree := (alookup id s.trees).getD []
    .ok ((alookup (PyKey.str (renderParts p)) tree).isSome, s)
  | (none, _) => .error .httpError

/-- Model of `ARCfs.isdir` (after string normalisation): repository display paths are
directories via `repos_dictionary`; other paths are looked up in the (lazily
built) repository tree. -/
def isdir (remote : Remote) (cat : Catalog) (s : State) (p : PathParts) :
    Bool × State :=
  if (alookup p cat.entries).isSome then (true, s)
  else
    match resolveP cat p with
    | (none, _) => (false, s)
    | (some id, seg?) =>
      let s := ensureBuilt remote id (seg?.getD ("")) s
      let tree := (alookup id s.trees).getD []
      match alookup (PyKey.path p) tree with
      | none => (false, s)
      | some e => (e.isDir, s)

/-- Model of `ARCfs.isdir` specialised to a repository tree that is already built and
to paths that resolve into it (used inside the loops of
`_build_directory_info` and `_gather_file_paths`, where this holds). -/
def isdirInTree (cat : Catalog) (tree : RepoTree) (p : PathParts) : Bool :=
  if (alookup p cat.entries).isSome then true
  else
    match alookup (PyKey.path p) tree with
    | none => false
    | some e => e.isDir

/-- Model of `PosixPath.parent` on parts: the parent of a single-part relative path
is `.` (empty parts); the root is its own parent. -/
def pyParent (p : PathParts) : PathParts :=
  if p = ["/"] then ["/"] else p.dropLast

/-- Python `str(Path(...))` of an empty parts tuple is `"."`, which the public
entry points normalise to `"/"`. -/
def normParts (p : PathParts) : PathParts :=
  if p = [] then ["/"] else p

/-- Model of `ARCfs._gather_file_paths`: at the root, all catalog display paths;
for a file, the path itself; for a directory, every non-directory tree
entry whose parent is the directory. -/
def gatherFilePaths (cat : Catalog) (tree : RepoTree) (p : PathParts) :
    List PathParts :=
  if p = ["/"] then
    cat.entries.filterMap (fun kv => if kv.1 ≠ ["/"] then some kv.1 else none)
  else if ¬ isdirInTree cat tree p then [p]
  else
    tree.filterMap (fun kv =>
      match kv.1 with
      | PyKey.path pth =>
        if pyParent pth = p ∧ ¬ kv.2.isDir then some pth else none
      | PyKey.str _ => none)

/-- Model of `ARCfs._build_directory_info`: require a directory, ensure the tree is
built, add directory infos for every tree entry at or directly under the
path, then probe metadata for the gathered files and add their infos.  File
sizes come from the remote size oracle (see `Probe` for the probe itself). -/
def buildDirectoryInfo (remote : Remote) (cat : Catalog) (s : State)
    (p : PathParts) : Except Err State :=
  let ds := isdir remote cat s p
  let s := ds.2
  if ¬ ds.1 then
    match checkRessource remote cat s p with
    | .error e => .error e
    | .ok (ex, _) =>
      if ¬ ex then .error .resourceNotFound else .error .directoryExpected
  else
    match resolveP cat p with
    | (none, _) => .error .httpError
    | (some id, seg?) =>
      let s := ensureBuilt remote id (seg?.getD ("")) s
      let tree := (alookup id s.trees).getD []
      let infos1 := tree.foldl
        (fun acc kv =>
          match kv.1 with
          | PyKey.path pth =>
            if (pyParent pth = p ∨ pth = p) ∧ isdirInTree cat tree pth then
              upsert pth (Info.dir kv.2.name) acc
            else acc
          | PyKey.str _ => acc)
        s.infos
      let files := gatherFilePaths cat tree p
      let infos2 := files.foldl
        (fun acc pth =>
          upsert pth (Info.file (pth.getLastD ("")) (remote.fileSize pth)) acc)
        infos1
      .ok { s with infos := infos2 }

/-- Model of `ARCfs.getinfo` (after string normalisation).  Single-part paths are
repository paths answered from `info_dict` directly; others lazily build
the repository tree (HTTP failures caught as `ResourceNotFound`), then the
info cache for the path's parent directory, and finally look the path up. -/
def getinfo (remote : Remote) (cat : Catalog) (s : State) (p : PathParts) :
    Except Err (Info × State) :=
  if p.length = 1 then
    match alookup p s.infos with
    | some i => .ok (i, s)
    | none => .error .resourceNotFound
  else
    match resolveP cat p with
    | (none, _) => .error .resourceNotFound
    | (some id, seg?) =>
      let s := ensureBuiltAcc remote id (seg?.getD ("")) s
      match alookup p s.infos with
      | some i => .ok (i, s)
      | none =>
        let ds := isdir remote cat s p
        let s := ds.2
        if ds.1 then
          let tree := (alookup id s.trees).getD []
          match alookup (PyKey.path p) tree with
          | none => .error .keyError
          | some e =>
            let s := { s with infos := upsert p (Info.dir e.name) s.infos }
            match alookup p s.infos with
            | some i => .ok (i, s)
            | none => .error .resourceNotFound
        else
          match buildDirectoryInfo remote cat s (normParts (pyParent p)) with
          | .error e => .error e
          | .ok s =>
            match alookup p s.infos with
            | some i => .ok (i, s)
            | none => .error .resourceNotFound

/-- Model of `ARCfs.makedir` (after string normalisation): an existing directory
raises `DirectoryExists` unless `recreate`; then a phantom directory entry
is inserted into the repository tree, the directory info is rebuilt, and a
`SubFS` handle rooted at the path (represented by the path) is returned. -/
def makedir (remote : Remote) (cat : Catalog) (s : State) (p : PathParts)
    (recreate : Bool) : Except Err (State × PathParts) :=
  let ds := isdir remote cat s p
  let s := ds.2
  if ds.1 ∧ ¬ recreate then .error .directoryExists
  else
    match p.getLast? with
    | none => .error .keyError
    | some name =>
      match resolveP cat p with
      | (none, _) => .error .attributeError
      | (some id, _) =>
        match alookup id s.trees with
        | none => .error .attributeError
        | some tree =>
          let tree' := upsert (PyKey.path p) ⟨true, name⟩ tree
          let s := { s with trees := upsert id tree' s.trees }
          match buildDirectoryInfo remote cat s p with
          | .error e => .error e
          | .ok s => .ok (s, p)

/-- Model of `ARCfs.upload` (after string normalisation), cache-effect view: the
parent directory must exist, the (always-false) existence check runs, and
everything that follows — default-branch resolution, `compute_size_sha`,
branch creation, the LFS batch negotiation and PUT, the pointer commit,
the `.gitattributes` commit and the merge request (arc_fs.py lines
953-1025) — is remote I/O that never touches `repo_trees_dict` or
`info_dict`. -/
def upload (remote : Remote) (cat : Catalog) (s : State) (p : PathParts) :
    Except Err State :=
  let ds := isdir remote cat s (normParts (pyParent p))
  let s := ds.2
  if ¬ ds.1 then .error .resourceNotFound
  else
    match checkRessource remote cat s p with
    | .error e => .error e
    | .ok (ex, s) =>
      if ex then .error .fileExists
      else
        match resolveP cat p with
        | (none, _) => .error .attributeError
        | (some _, _) => .ok s

end Fs

/-! ## Concrete instances used by witnesses and counterexamples -/

/-- A demo HTTP world: one URL that 404s, every other URL succeeds with an
`X-Gitlab-Size` header. -/
def probeWorld : Probe.World := fun url =>
  if url = "u404" then ⟨404, [], ""⟩
  else ⟨200, [("X-Gitlab-Size", "10")], ""⟩

/-- A demo catalog for the character-level resolver: the synthetic root
record plus one repository `a` with id 7. -/
def demoCat : Resolve.Catalog :=
  [([['/']], none), ([['a']], some 7)]

/-- A demo catalog for the state model: the synthetic root record plus one
repository `A` with id 1. -/
def fsCat : Fs.Catalog :=
  ⟨[(["/"], none), (["A"], some 1)]⟩

/-- A demo remote: repository 1 contains a directory `sub` holding one file
`f.txt`; probed file sizes are all 3. -/
def fsRemote : Fs.Remote :=
  ⟨fun i => if i = 1 then
      [⟨["sub"], "tree", "sub"⟩, ⟨["sub", "f.txt"], "blob", "f.txt"⟩]
    else [],
   fun _ => 3⟩

/-- The fresh cache state right after `ARCfs.__init__` (with the initial
repository info for `A` and the root in `info_dict`). -/
def fsInit : Fs.State :=
  ⟨[], [], [(["/"], Fs.Info.dir ("/")), (["A"], Fs.Info.dir ("A"))], 0⟩

/-- State `fsInit` after repository 1's tree has been built once. -/
def fsBuilt : Fs.State := Fs.constructTreeDict fsRemote 1 "A" fsInit

/-! ## Helper lemmas -/

theorem alookup_upsert_self {κ α : Type} [DecidableEq κ] (k : κ) (v : α)
    (l : List (κ × α)) : alookup k (upsert k v l) = some v := by
  induction l with
  | nil => simp [alookup, upsert]
  | cons kv t ih =>
    by_cases h : kv.1 = k
    · simp [upsert, alookup, h]
    · simp [upsert, alookup, h, ih]

theorem alookup_upsert_ne {κ α : Type} [DecidableEq κ] {k k' : κ} (v : α)
    (l : List (κ × α)) (h : k' ≠ k) :
    alookup k (upsert k' v l) = alookup k l := by
  induction l with
  | nil => simp [alookup, upsert, h]
  | cons kv t ih =>
    obtain ⟨k1, v1⟩ := kv
    by_cases h2 : k1 = k'
    · subst h2
      simp [upsert, alookup, h]
    · by_cases h3 : k1 = k
      · subst h3
        simp [upsert, alookup, h2]
      · simp [upsert, alookup, h2, h3, ih]

theorem upsert_eq_of_alookup {κ α : Type} [DecidableEq κ] {k : κ} {v : α}
    {l : List (κ × α)} (h : alookup k l = some v) : upsert k v l = l := by
  induction l with
  | nil => simp [alookup] at h
  | cons kv t ih =>
    obtain ⟨k1, v1⟩ := kv
    by_cases h2 : k1 = k
    · subst h2
      simp [alookup] at h
      simp [upsert, h]
    · simp [alookup, h2] at h
      simp [upsert, h2, ih h]

/-! ## C1: upload round-trip of the committed pointer file -/

namespace Pointer

theorem lfsWriteAll_spec (ws : List (List Nat)) :
    ∀ f : LFS, (lfsWriteAll f ws).buf = f.buf ++ ws.flatten ∧
      (lfsWriteAll f ws).sha.absorbed = f.sha.absorbed ++ ws.flatten := by
  induction ws with
  | nil => intro f; simp [lfsWriteAll]
  | cons w t ih =>
    intro f
    simp only [lfsWriteAll, List.foldl_cons, List.flatten_cons] at ih ⊢
    constructor
    · rw [(ih (lfsWrite f w)).1]
      simp [lfsWrite, List.append_assoc]
    · rw [(ih (lfsWrite f w)).2]
      simp [lfsWrite, shaUpdate, List.append_assoc]

theorem chunkify_flatten_eq (n : Nat) (l : List Nat) :
    (chunkify n l).flatten = l := by
  have key : ∀ (m : Nat) (l : List Nat), l.length ≤ m →
      (chunkify n l).flatten = l := by
    intro m
    induction m with
    | zero =>
      intro l h
      have : l = [] := by
        cases l with
        | nil => rfl
        | cons x xs => simp at h
      subst this
      simp [chunkify]
    | succ m ih =>
      intro l h
      cases l with
      | nil => simp [chunkify]
      | cons x xs =>
        rw [chunkify]
        simp only [List.flatten_cons]
        have hlen : (xs.drop (n - 1)).length ≤ m := by
          simp only [List.length_drop]
          simp only [List.length_cons] at h
          omega
        rw [ih (xs.drop (n - 1)) hlen]
        simp [List.take_append_drop]
  exact key l.length l le_rfl

theorem computeSizeSha_spec (c : List Nat) :
    computeSizeSha c = (c.length, ⟨c⟩) := by
  have habs : ∀ (chunks : List (List Nat)) (init : Sha256Ctx),
      (chunks.foldl shaUpdate init).absorbed =
        init.absorbed ++ chunks.flatten := by
    intro chunks
    induction chunks with
    | nil => intro init; simp
    | cons ch t ih =>
      intro init
      simp only [List.foldl_cons, List.flatten_cons]
      rw [ih]
      simp [shaUpdate]
  have h := habs (chunkify (1024 * 1024 * 10) c) ⟨[]⟩
  rw [chunkify_flatten_eq] at h
  simp only [computeSizeSha]
  refine Prod.ext rfl ?_
  exact congrArg Sha256Ctx.mk (by simpa using h)

end Pointer

/-- C1: for every byte string written through the upload pipeline — via
`upload(path, file)` or an `LFSFile` opened for write (any sequence of
writes) and closed — the pointer file committed by `_commit_pointer_file`
is the three-line format
`version https://git-lfs.github.com/spec/v1\noid sha256:<hex>\nsize <bytes>\n`
whose declared oid is the SHA-256 hex digest of the content and whose
declared size is the content's byte length. -/
theorem c1_pointer_round_trip :
    ∀ (hex : List Nat → String) (ws : List (List Nat)) (c : List Nat),
      Pointer.lfsCloseCommitContent hex (Pointer.lfsWriteAll Pointer.lfsInit ws) =
        "version https://git-lfs.github.com/spec/v1\n" ++ "oid sha256:" ++
          hex ws.flatten ++ "\nsize " ++ toString ws.flatten.length ++ "\n" ∧
      Pointer.uploadCommitContent hex c =
        "version https://git-lfs.github.com/spec/v1\n" ++ "oid sha256:" ++
          hex c ++ "\nsize " ++ toString c.length ++ "\n" := by
  intro hex ws c
  constructor
  · have h := Pointer.lfsWriteAll_spec ws Pointer.lfsInit
    unfold Pointer.lfsCloseCommitContent Pointer.pointerContent
      Pointer.shaHexdigest Pointer.lfsGetSize
    rw [h.1, h.2]
    simp [Pointer.lfsInit]
  · unfold Pointer.uploadCommitContent Pointer.pointerContent
      Pointer.shaHexdigest
    rw [Pointer.computeSizeSha_spec]

/-- C5: during `LFSFile.close`, a pointer-commit response that fails to
decode as JSON is swallowed — `close` returns normally for every
transaction that reaches the pointer-commit step (branch creation and LFS
negotiation did not raise). -/
theorem c5_close_swallows_decode_error (w : Close.CloseWorld)
    (hbranch : w.branchResp = .ok ())
    (hupload : w.uploadNegotiation = .ok ())
    (hcommit : w.commitPointer = .error .jsonDecode) :
    Close.lfsClose w = .ok () := by
  simp only [Close.lfsClose, hbranch, hupload, hcommit]
  rfl

theorem c5_close_swallows_decode_error_witness :
    Close.lfsClose ⟨.ok (), .ok (), .error .jsonDecode, .ok (), .ok ()⟩ =
      .ok () :=
  c5_close_swallows_decode_error ⟨.ok (), .ok (), .error .jsonDecode, .ok (), .ok ()⟩
    rfl rfl rfl

/-! ## C6: default-branch resolution picks the last default-flagged branch -/

theorem find?_eq_head?_filter {α : Type} (p : α → Bool) (l : List α) :
    l.find? p = (l.filter p).head? := by
  induction l with
  | nil => rfl
  | cons a t ih =>
    by_cases h : p a = true
    · rw [List.find?_cons_of_pos _ h, List.filter_cons_of_pos h]
      rfl
    · rw [List.find?_cons_of_neg _ h, List.filter_cons_of_neg h, ih]

/-- C6: for every paginated branch listing, `_get_default_branch` returns
the name of the last branch in listing order that carries the default flag
(`none`, i.e. an unbound `default_branch`, when no branch is flagged):
iterating `reversed(branches)` and breaking at the first flagged entry is
exactly the last flagged entry of the listing. -/
theorem c6_default_branch_last_flagged (branches : List Branches.Branch) :
    Branches.getDefaultBranch branches =
      ((branches.filter (fun b => b.defaultFlag)).getLast?).map
        Branches.Branch.name := by
  simp only [Branches.getDefaultBranch]
  rw [find?_eq_head?_filter, List.filter_reverse, List.head?_reverse]

/-! ## C3: 404 probes yield `none`, batches keep the successes -/

/-- C3: a metadata probe whose terminal HTTP status is 404 returns `none`
for that path instead of raising, and a batch (`_retrieve_metadata`) maps
every path — 404 or successful — to its own probe result, so the successes
keep their metadata records and the 404 paths map to `none`. -/
theorem c3_probe_404_none_batch_keeps_successes :
    (∀ (world : Probe.World) (url name : String),
      Probe.terminalStatus world url = some 404 →
      Probe.getGitlabMetadata world url name = .ok none) ∧
    (∀ (world : Probe.World) (mkUrl nameOf : String → String)
      (paths : List String) (p : String), p ∈ paths →
      alookup p (Probe.retrieveMetadata world mkUrl nameOf paths) =
        some (Probe.getGitlabMetadata world (mkUrl p) (nameOf p))) := by
  constructor
  · intro world url name h
    unfold Probe.terminalStatus at h
    by_cases hr : (world url).status = 301 ∨ (world url).status = 302
    · rw [if_pos hr] at h
      cases hl : Probe.hget (world url).headers ("Location") with
      | none => rw [hl] at h; simp at h
      | some loc =>
        rw [hl] at h
        have h404 : (world loc).status = 404 := by simpa using h
        simp [Probe.getGitlabMetadata, hr, hl, h404]
    · rw [if_neg hr] at h
      have h404 : (world url).status = 404 := by simpa using h
      simp [Probe.getGitlabMetadata, hr, h404]
  · intro world mkUrl nameOf paths p hp
    induction paths with
    | nil => simp at hp
    | cons a t ih =>
      simp only [Probe.retrieveMetadata, List.map_cons] at ih ⊢
      by_cases h : a = p
      · subst h
        simp [alookup]
      · have hpt : p ∈ t := by
          rcases List.mem_cons.mp hp with h2 | h2
          · exact absurd h2.symm h
          · exact h2
        simp [alookup, h, ih hpt]

theorem c3_probe_404_none_batch_witness :
    Probe.getGitlabMetadata probeWorld ("u404") "f.txt" = .ok none ∧
    alookup ("uok") (Probe.retrieveMetadata probeWorld id id ["u404", "uok"]) =
      some (.ok (some ⟨"uok", "10"⟩)) := by
  constructor
  · exact c3_probe_404_none_batch_keeps_successes.1 probeWorld ("u404") "f.txt"
      (by rfl)
  · have h := c3_probe_404_none_batch_keeps_successes.2 probeWorld id id
      ["u404", "uok"] "uok" (by simp)
    rw [h]
    rfl

/-! ## C4 and C7: the path resolver -/

namespace Resolve

theorem lstripSlash_no_slash_head (c : Char) (cs t : List Char)
    (hc : c ≠ '/') : lstripSlash ((c :: cs) ++ t) = (c :: cs) ++ t := by
  simp [lstripSlash, List.dropWhile_cons, hc]

theorem rstripSlash_append (p t : List Char) (h : '/' ∉ p) :
    rstripSlash (p ++ t) = p ++ rstripSlash t := by
  induction p with
  | nil => rfl
  | cons c cs ih =>
    have hc : c ≠ '/' := fun e => h (e ▸ List.mem_cons_self c cs)
    have hcs : '/' ∉ cs := fun e => h (List.mem_cons_of_mem c e)
    simp only [List.cons_append, rstripSlash]
    have ihh : rstripSlash (List.append cs t) = cs ++ rstripSlash t := ih hcs
    rw [ihh]
    cases h2 : cs ++ rstripSlash t with
    | nil =>
      rcases List.append_eq_nil.mp h2 with ⟨e1, e2⟩
      simp [hc, e1, e2]
    | cons x xs =>
      simp [h2]

theorem rstripSlash_shape (l : List Char) :
    rstripSlash l = [] ∨ (rstripSlash l).head? = l.head? := by
  cases l with
  | nil => exact Or.inl rfl
  | cons c cs =>
    simp only [rstripSlash]
    cases h : rstripSlash cs with
    | nil =>
      by_cases hc : c = '/'
      · exact Or.inl (by simp [hc])
      · exact Or.inr (by simp [hc])
    | cons x xs => exact Or.inr (by simp)

theorem splitSlash_no_slash (p : List Char) (h : '/' ∉ p) :
    splitSlash p = [p] := by
  induction p with
  | nil => rfl
  | cons c cs ih =>
    have hc : c ≠ '/' := fun e => h (e ▸ List.mem_cons_self c cs)
    have hcs : '/' ∉ cs := fun e => h (List.mem_cons_of_mem c e)
    simp only [splitSlash, hc, if_false]
    rw [ih hcs]

theorem splitSlash_append (p s : List Char) (h : '/' ∉ p) :
    splitSlash (p ++ '/' :: s) = p :: splitSlash s := by
  induction p with
  | nil => simp [splitSlash]
  | cons c cs ih =>
    have hc : c ≠ '/' := fun e => h (e ▸ List.mem_cons_self c cs)
    have hcs : '/' ∉ cs := fun e => h (List.mem_cons_of_mem c e)
    simp only [List.cons_append, splitSlash, hc, if_false]
    have ihh : splitSlash (List.append cs ('/' :: s)) = cs :: splitSlash s := ih hcs
    rw [ihh]

theorem pathParts_single (p : List Char) (h1 : p ≠ []) (h2 : '/' ∉ p)
    (h3 : p ≠ ['.']) : pathParts p = [p] := by
  obtain ⟨c, cs, rfl⟩ : ∃ c cs, p = c :: cs := by
    cases p with
    | nil => exact absurd rfl h1
    | cons c cs => exact ⟨c, cs, rfl⟩
  have hc : c ≠ '/' := fun e => h2 (e ▸ List.mem_cons_self c cs)
  simp only [pathParts, splitSlash_no_slash _ h2]
  simp [hc, h3]

theorem stripSlashes_no_slash (p : List Char) (h1 : p ≠ []) (h2 : '/' ∉ p) :
    stripSlashes p = p := by
  obtain ⟨c, cs, rfl⟩ : ∃ c cs, p = c :: cs := by
    cases p with
    | nil => exact absurd rfl h1
    | cons c cs => exact ⟨c, cs, rfl⟩
  have hc : c ≠ '/' := fun e => h2 (e ▸ List.mem_cons_self c cs)
  have hl : lstripSlash (c :: cs) = c :: cs := by
    simpa using lstripSlash_no_slash_head c cs [] hc
  simp only [stripSlashes, hl]
  have := rstripSlash_append (c :: cs) [] h2
  simpa [rstripSlash] using this

theorem pathParts_head_of_append (p u : List Char) (h1 : p ≠ [])
    (h2 : '/' ∉ p) (h3 : p ≠ ['.'])
    (hu : u = [] ∨ u.head? = some '/') :
    (pathParts (p ++ u)).head? = some p := by
  obtain ⟨c, cs, rfl⟩ : ∃ c cs, p = c :: cs := by
    cases p with
    | nil => exact absurd rfl h1
    | cons c cs => exact ⟨c, cs, rfl⟩
  have hc : c ≠ '/' := fun e => h2 (e ▸ List.mem_cons_self c cs)
  rcases hu with rfl | hu
  · rw [List.append_nil, pathParts_single _ h1 h2 h3]
    rfl
  · cases u with
    | nil => simp at hu
    | cons x xs =>
      have hx : x = '/' := by simpa using hu
      subst hx
      simp only [pathParts, splitSlash_append _ _ h2]
      simp [hc, h3]

end Resolve

/-- C4: for every repository display path `p` present in the Catalog
snapshot (a non-empty single segment, no separator, not `.`, as produced by
`_get_accessable_repositories`), `_get_repo_id_path` applied to `p` yields
that repository's id (and `p` as the root segment), and for every suffix
`s`, `_get_repo_id_path (p ++ "/" ++ s)` yields the same id. -/
theorem c4_resolver_display_paths (cat : Resolve.Catalog) (p : List Char)
    (id : Nat) (h1 : p ≠ []) (h2 : '/' ∉ p) (h3 : p ≠ ['.'])
    (hlk : alookup [p] cat = some (some id)) :
    Resolve.getRepoIdPath cat p = .ok (some id, some p) ∧
    ∀ s : List Char, s ≠ [] →
      Resolve.getRepoIdPath cat (p ++ '/' :: s) = .ok (some id, some p) := by
  have hnorm1 : Resolve.normalizePath p = p := by
    have hd : p ≠ ['.', '/'] := by
      intro e
      exact h2 (e ▸ List.mem_cons_of_mem '.' (List.mem_cons_self '/' []))
    have hs : p ≠ ['/'] := by
      intro e
      exact h2 (e ▸ List.mem_cons_self '/' [])
    simp only [Resolve.normalizePath, h3, hd, hs]
    simp [Resolve.stripSlashes_no_slash p h1 h2]
  constructor
  · simp only [Resolve.getRepoIdPath, hnorm1,
      Resolve.pathParts_single p h1 h2 h3]
    simp [Resolve.pathParts_single p h1 h2 h3, hlk]
  · intro s _
    obtain ⟨c, cs, rfl⟩ : ∃ c cs, p = c :: cs := by
      cases p with
      | nil => exact absurd rfl h1
      | cons c cs => exact ⟨c, cs, rfl⟩
    have hc : c ≠ '/' := fun e => h2 (e ▸ List.mem_cons_self c cs)
    -- the combined path is none of the normalisation special cases
    have ha1 : (c :: cs) ++ '/' :: s ≠ ['.'] := by
      cases cs <;> simp
    have ha2 : (c :: cs) ++ '/' :: s ≠ ['.', '/'] := by
      intro e
      rw [List.cons_append] at e
      injection e with e1 e2
      subst e1
      cases cs with
      | nil => exact h3 rfl
      | cons d ds =>
        rw [List.cons_append] at e2
        injection e2 with e3 e4
        exact h2 (e3 ▸ List.mem_cons_of_mem '.' (List.mem_cons_self d ds))
    have ha3 : (c :: cs) ++ '/' :: s ≠ ['/'] := by
      intro e
      rw [List.cons_append] at e
      injection e with e1 _
      exact hc e1
    -- normalisation strips slashes only
    have hnorm2 : Resolve.normalizePath ((c :: cs) ++ '/' :: s) =
        Resolve.stripSlashes ((c :: cs) ++ '/' :: s) := by
      simp only [Resolve.normalizePath, ha1, ha2, ha3]
      simp
    have hl : Resolve.lstripSlash ((c :: cs) ++ '/' :: s) =
        (c :: cs) ++ '/' :: s :=
      Resolve.lstripSlash_no_slash_head c cs ('/' :: s) hc
    have hr : Resolve.rstripSlash ((c :: cs) ++ '/' :: s) =
        (c :: cs) ++ Resolve.rstripSlash ('/' :: s) :=
      Resolve.rstripSlash_append (c :: cs) ('/' :: s) h2
    have hstrip : Resolve.stripSlashes ((c :: cs) ++ '/' :: s) =
        (c :: cs) ++ Resolve.rstripSlash ('/' :: s) := by
      rw [Resolve.stripSlashes, hl, hr]
    have hu : Resolve.rstripSlash ('/' :: s) = [] ∨
        (Resolve.rstripSlash ('/' :: s)).head? = some '/' := by
      rcases Resolve.rstripSlash_shape ('/' :: s) with h | h
      · exact Or.inl h
      · exact Or.inr (by rw [h]; rfl)
    have hhead : (Resolve.pathParts
        (Resolve.normalizePath ((c :: cs) ++ '/' :: s))).head? =
        some (c :: cs) := by
      rw [hnorm2, hstrip]
      exact Resolve.pathParts_head_of_append (c :: cs) _ h1 h2 h3 hu
    simp only [Resolve.getRepoIdPath, hhead,
      Resolve.pathParts_single (c :: cs) h1 h2 h3]
    simp [hlk]

theorem c4_resolver_display_paths_witness :
    Resolve.getRepoIdPath demoCat ['a'] = .ok (some 7, some ['a']) ∧
    Resolve.getRepoIdPath demoCat ['a', '/', 'x', '/', 'y'] =
      .ok (some 7, some ['a']) :=
  ⟨(c4_resolver_display_paths demoCat ['a'] 7 (by decide) (by decide)
      (by decide) (by decide)).1,
   (c4_resolver_display_paths demoCat ['a'] 7 (by decide) (by decide)
      (by decide) (by decide)).2 ['x', '/', 'y'] (by decide)⟩

/-- C7 counterexample: the claim says the empty path is normalized to `/`,
but `_get_repo_id_path("")` raises `IndexError` (`Path("")` is `.`, whose
`parts` tuple is empty), while `"/"` itself resolves without raising. -/
theorem c7_empty_path_counterexample :
    Resolve.getRepoIdPath demoCat [] = .error .indexError ∧
    Resolve.getRepoIdPath demoCat ['/'] = .ok (none, some ['/']) := by
  constructor <;> rfl

/-- C7 (amended): path resolution normalizes `.` and `./` to `/` and
strips leading/trailing separators from every other path (the result
depends only on the stripped string); the empty path is NOT normalized —
it raises `IndexError` (callers pre-normalize `""` to `"/"` before calling
the resolver); and for every path whose first segment is not a known
repository display path the resolver returns `(none, none)` without
raising. -/
theorem c7_resolver_normalization_amended :
    (∀ cat : Resolve.Catalog,
      Resolve.getRepoIdPath cat ['.'] = Resolve.getRepoIdPath cat ['/'] ∧
      Resolve.getRepoIdPath cat ['.', '/'] = Resolve.getRepoIdPath cat ['/']) ∧
    (∀ (cat : Resolve.Catalog) (s1 s2 : List Char),
      s1 ≠ ['.'] → s1 ≠ ['.', '/'] → s1 ≠ ['/'] →
      s2 ≠ ['.'] → s2 ≠ ['.', '/'] → s2 ≠ ['/'] →
      Resolve.stripSlashes s1 = Resolve.stripSlashes s2 →
      Resolve.getRepoIdPath cat s1 = Resolve.getRepoIdPath cat s2) ∧
    (∀ (cat : Resolve.Catalog) (s r : List Char),
      (Resolve.pathParts (Resolve.normalizePath s)).head? = some r →
      alookup (Resolve.pathParts r) cat = none →
      Resolve.getRepoIdPath cat s = .ok (none, none)) := by
  refine ⟨fun cat => ⟨rfl, rfl⟩, ?_, ?_⟩
  · intro cat s1 s2 h1 h2 h3 h4 h5 h6 hstrip
    have hor1 : ¬(s1 = ['.'] ∨ s1 = ['.', '/']) := fun h => h.elim h1 h2
    have hor2 : ¬(s2 = ['.'] ∨ s2 = ['.', '/']) := fun h => h.elim h4 h5
    have e1 : Resolve.normalizePath s1 = Resolve.stripSlashes s1 := by
      simp only [Resolve.normalizePath, if_neg hor1, if_pos h3]
    have e2 : Resolve.normalizePath s2 = Resolve.stripSlashes s2 := by
      simp only [Resolve.normalizePath, if_neg hor2, if_pos h6]
    simp only [Resolve.getRepoIdPath, e1, e2, hstrip]
  · intro cat s r hhead hlk
    simp only [Resolve.getRepoIdPath, hhead, hlk]

theorem c7_resolver_normalization_amended_witness :
    Resolve.getRepoIdPath demoCat ['.'] = Resolve.getRepoIdPath demoCat ['/'] ∧
    Resolve.getRepoIdPath demoCat ['/', 'a', '/'] =
      Resolve.getRepoIdPath demoCat ['a'] ∧
    Resolve.getRepoIdPath demoCat ['z'] = .ok (none, none) :=
  ⟨(c7_resolver_normalization_amended.1 demoCat).1,
   c7_resolver_normalization_amended.2.1 demoCat ['/', 'a', '/'] ['a']
     (by decide) (by decide) (by decide) (by decide) (by decide) (by decide)
     (by rfl),
   c7_resolver_normalization_amended.2.2 demoCat ['z'] ['z'] (by rfl) (by rfl)⟩

/-! ## C8: double-extension collapse before committing -/

/-- C8: for every target path (any directory components `ds`, stem `st`)
whose final name carries two extension components, both the `openbin`
write-mode cleanup and `upload`'s `clean_file_ext` collapse a doubled
identical extension to a single occurrence (`name.tar.tar` to `name.tar`;
`openbin`'s variant rebuilds from the bare stem, `clean_file_ext` keeps the
directory), while a path whose two extension components differ keeps its
name unchanged. -/
theorem c8_double_extension_collapse :
    (∀ (ds : List (List Char)) (st e : List Char),
      Ext.openbinCollapse ⟨ds, st, [e, e]⟩ = ⟨[], st, [e]⟩ ∧
      Ext.cleanFileExt ⟨ds, st, [e, e]⟩ = ⟨ds, st, [e]⟩) ∧
    (∀ (ds : List (List Char)) (st e1 e2 : List Char), e1 ≠ e2 →
      Ext.openbinCollapse ⟨ds, st, [e1, e2]⟩ = ⟨ds, st, [e1, e2]⟩ ∧
      Ext.cleanFileExt ⟨ds, st, [e1, e2]⟩ = ⟨ds, st, [e1, e2]⟩) := by
  constructor
  · intro ds st e
    constructor
    · simp [Ext.openbinCollapse, Ext.pyWithSuffix, Ext.pathOfStem]
    · simp [Ext.cleanFileExt, Ext.stripAllSuffixes, Ext.stripLoop,
        Ext.pyWithSuffixEmpty, Ext.pyWithSuffix, Ext.dedupFirst,
        Ext.dedupFirstAux]
  · intro ds st e1 e2 hne
    constructor
    · simp [Ext.openbinCollapse, hne]
    · simp [Ext.cleanFileExt, Ext.stripAllSuffixes, Ext.stripLoop,
        Ext.pyWithSuffixEmpty, Ext.pyWithSuffix, Ext.dedupFirst,
        Ext.dedupFirstAux, hne, Ne.symm hne]

theorem c8_double_extension_collapse_witness :
    Ext.openbinCollapse ⟨[], ['n'], [['t'], ['t']]⟩ = ⟨[], ['n'], [['t']]⟩ ∧
    Ext.cleanFileExt ⟨[['d']], ['n'], [['t'], ['g']]⟩ =
      ⟨[['d']], ['n'], [['t'], ['g']]⟩ :=
  ⟨(c8_double_extension_collapse.1 [] ['n'] ['t']).1,
   (c8_double_extension_collapse.2 [['d']] ['n'] ['t'] ['g'] (by decide)).2⟩

/-! ## State lemmas for the ARCfs cache model -/

namespace Fs

theorem mem_addOnce (id : Nat) (l : List Nat) : id ∈ addOnce id l := by
  unfold addOnce
  split
  · assumption
  · exact List.mem_cons_self id l

theorem constructTreeDict_trees_built (remote : Remote) (id : Nat) (seg : Seg)
    (s : State) :
    (alookup id (constructTreeDict remote id seg s).trees).isSome := by
  simp only [constructTreeDict]
  rw [alookup_upsert_self]
  rfl

theorem constructTreeDict_accessed (remote : Remote) (id : Nat) (seg : Seg)
    (s : State) : id ∈ (constructTreeDict remote id seg s).accessed := by
  simp only [constructTreeDict]
  exact mem_addOnce id s.accessed

theorem isdir_state_of_built (remote : Remote) (cat : Catalog) (s : State)
    (p : PathParts) (id : Nat) (seg : Seg)
    (hres : resolveP cat p = (some id, some seg))
    (hb : (alookup id s.trees).isSome) :
    (isdir remote cat s p).2 = s := by
  unfold isdir
  by_cases hc : (alookup p cat.entries).isSome = true
  · simp [hc]
  · rw [if_neg (by simpa using hc), hres]
    simp only [Option.getD_some, ensureBuilt, if_pos hb]
    cases h2 : alookup (PyKey.path p) ((alookup id s.trees).getD []) <;>
      simp [h2]

theorem checkRessource_of_built (remote : Remote) (cat : Catalog) (s : State)
    (p : PathParts) (id : Nat) (seg : Seg)
    (hres : resolveP cat p = (some id, some seg))
    (hb : (alookup id s.trees).isSome) :
    checkRessource remote cat s p =
      .ok ((alookup (PyKey.str (renderParts p))
        ((alookup id s.trees).getD [])).isSome, s) := by
  unfold checkRessource
  rw [hres]
  simp [ensureBuilt, if_pos hb]

end Fs

/-- C2: the tree-cache build is idempotent.  After `_construct_tree_dict`
has run once for a repository id, a second guarded build — whether guarded
by `repo_trees_dict` membership (`_check_ressource`, `_gather_file_paths`,
`_build_directory_info`, `listdir`, `isdir`) or by `accesed_repositories`
membership (`getinfo`) — is a no-op: no remote tree fetch happens and the
whole state, in particular the repository's entry set, is unchanged; and
`isdir`/`_check_ressource` on paths resolving to that repository leave the
state untouched as well. -/
theorem c2_tree_cache_idempotent (remote : Fs.Remote) (cat : Fs.Catalog)
    (id : Nat) (seg : Fs.Seg) (s0 : Fs.State) :
    Fs.ensureBuilt remote id seg (Fs.constructTreeDict remote id seg s0) =
      Fs.constructTreeDict remote id seg s0 ∧
    Fs.ensureBuiltAcc remote id seg (Fs.constructTreeDict remote id seg s0) =
      Fs.constructTreeDict remote id seg s0 ∧
    (∀ p : Fs.PathParts, Fs.resolveP cat p = (some id, some seg) →
      (Fs.isdir remote cat (Fs.constructTreeDict remote id seg s0) p).2 =
        Fs.constructTreeDict remote id seg s0 ∧
      ∃ b : Bool, Fs.checkRessource remote cat
          (Fs.constructTreeDict remote id seg s0) p =
        .ok (b, Fs.constructTreeDict remote id seg s0)) := by
  have hb := Fs.constructTreeDict_trees_built remote id seg s0
  refine ⟨?_, ?_, ?_⟩
  · simp [Fs.ensureBuilt, hb]
  · simp [Fs.ensureBuiltAcc, Fs.constructTreeDict_accessed remote id seg s0]
  · intro p hres
    exact ⟨Fs.isdir_state_of_built remote cat _ p id seg hres hb,
      ⟨_, Fs.checkRessource_of_built remote cat _ p id seg hres hb⟩⟩

theorem c2_tree_cache_idempotent_witness :
    Fs.ensureBuilt fsRemote 1 "A" fsBuilt = fsBuilt ∧
    Fs.ensureBuiltAcc fsRemote 1 "A" fsBuilt = fsBuilt ∧
    ((Fs.isdir fsRemote fsCat fsBuilt ["A", "sub"]).2 = fsBuilt ∧
      ∃ b : Bool, Fs.checkRessource fsRemote fsCat fsBuilt ["A", "sub"] =
        .ok (b, fsBuilt)) :=
  ⟨(c2_tree_cache_idempotent fsRemote fsCat 1 "A" fsInit).1,
   (c2_tree_cache_idempotent fsRemote fsCat 1 "A" fsInit).2.1,
   (c2_tree_cache_idempotent fsRemote fsCat 1 "A" fsInit).2.2 ["A", "sub"]
     (by rfl)⟩

namespace Fs

theorem isdir_of_entry (remote : Remote) (cat : Catalog) (s : State)
    (p : PathParts) (id : Nat) (seg name : Seg) (tree : RepoTree)
    (hres : resolveP cat p = (some id, some seg))
    (htree : alookup id s.trees = some tree)
    (hentry : alookup (PyKey.path p) tree = some ⟨true, name⟩) :
    isdir remote cat s p = (true, s) := by
  unfold isdir
  by_cases hc : (alookup p cat.entries).isSome = true
  · simp [hc]
  · rw [if_neg (by simpa using hc), hres]
    simp only [Option.getD_some, ensureBuilt, htree]
    simp [htree, hentry]

theorem buildDirectoryInfo_of_built (remote : Remote) (cat : Catalog)
    (s : State) (p : PathParts) (id : Nat) (seg : Seg)
    (hres : resolveP cat p = (some id, some seg))
    (hb : (alookup id s.trees).isSome)
    (hd : isdir remote cat s p = (true, s)) :
    ∃ infos2, buildDirectoryInfo remote cat s p =
      .ok ⟨s.trees, s.accessed, infos2, s.fetchCount⟩ := by
  simp only [buildDirectoryInfo, hd]
  rw [hres]
  simp only [Option.getD_some, ensureBuilt, if_pos hb]
  simp only [not_true, if_false, Bool.true_eq_false, reduceIte]
  exact ⟨_, rfl⟩

end Fs

/-- C9 counterexample: `makedir` with `recreate=True` on the existing
directory `A/sub` is not a no-op on the cached state — the final
`_build_directory_info` call adds descriptor records (for `A/sub` itself
and for its file `A/sub/f.txt`) to `info_dict`, which had no entry for
`A/sub` before. -/
theorem c9_makedir_recreate_counterexample :
    alookup ["A", "sub"] fsBuilt.infos = none ∧
    (Fs.makedir fsRemote fsCat fsBuilt ["A", "sub"] true).map
      (fun r => alookup ["A", "sub"] r.1.infos) =
      .ok (some (Fs.Info.dir ("sub"))) := by
  constructor <;> rfl

/-- C9 (amended): `makedir` on a path that is already an existing directory
(a built tree entry flagged as a directory, named by the path's last part)
raises `DirectoryExists` when called without `recreate`; with
`recreate=True` it returns a sub-filesystem handle rooted at the existing
directory and leaves the tree cache (and fetch count) unchanged — the
re-inserted phantom entry equals the existing one — but it still rebuilds
the directory's info records, so the info cache may gain descriptor
entries (see the counterexample). -/
theorem c9_makedir_amended (remote : Fs.Remote) (cat : Fs.Catalog)
    (s : Fs.State) (p : Fs.PathParts) (id : Nat) (seg name : Fs.Seg)
    (tree : Fs.RepoTree)
    (hres : Fs.resolveP cat p = (some id, some seg))
    (htree : alookup id s.trees = some tree)
    (hlast : p.getLast? = some name)
    (hentry : alookup (Fs.PyKey.path p) tree = some ⟨true, name⟩) :
    Fs.makedir remote cat s p false = .error .directoryExists ∧
    ∃ s' : Fs.State, Fs.makedir remote cat s p true = .ok (s', p) ∧
      s'.trees = s.trees ∧ s'.accessed = s.accessed ∧
      s'.fetchCount = s.fetchCount := by
  have hd := Fs.isdir_of_entry remote cat s p id seg name tree hres htree hentry
  constructor
  · simp [Fs.makedir, hd]
  · have htr' : upsert (Fs.PyKey.path p) ⟨true, name⟩ tree = tree :=
      upsert_eq_of_alookup hentry
    have hts : upsert id tree s.trees = s.trees :=
      upsert_eq_of_alookup htree
    obtain ⟨infos2, hbuild⟩ := Fs.buildDirectoryInfo_of_built remote cat s p
      id seg hres (by rw [htree]; rfl) hd
    refine ⟨⟨s.trees, s.accessed, infos2, s.fetchCount⟩, ?_, rfl, rfl, rfl⟩
    simp only [Fs.makedir, hd]
    rw [hlast, hres]
    simp [htree, htr', hts, hbuild]

/-! ## Lemmas for the upload frame property -/

theorem alookup_none_forall {κ α : Type} [DecidableEq κ] {k : κ}
    {l : List (κ × α)} (h : alookup k l = none) :
    ∀ kv ∈ l, kv.1 ≠ k := by
  induction l with
  | nil => intro kv hkv; simp at hkv
  | cons a t ih =>
    intro kv hkv
    by_cases ha : a.1 = k
    · rw [show alookup k (a :: t) = if a.1 = k then some a.2 else alookup k t
        from by cases a; rfl, if_pos ha] at h
      simp at h
    · rw [show alookup k (a :: t) = if a.1 = k then some a.2 else alookup k t
        from by cases a; rfl, if_neg ha] at h
      rcases List.mem_cons.mp hkv with rfl | hm
      · exact ha
      · exact ih h kv hm

theorem alookup_foldl_preserve {κ α β : Type} [DecidableEq κ] (k : κ)
    (f : List (κ × α) → β → List (κ × α)) (l : List β)
    (hf : ∀ acc e, e ∈ l → alookup k (f acc e) = alookup k acc) :
    ∀ init, alookup k (l.foldl f init) = alookup k init := by
  induction l with
  | nil => intro init; rfl
  | cons a t ih =>
    intro init
    rw [List.foldl_cons,
      ih (fun acc e he => hf acc e (List.mem_cons_of_mem a he)) (f init a)]
    exact hf init a (List.mem_cons_self a t)

namespace Fs

theorem ensureBuilt_idem (remote : Remote) (id : Nat) (seg : Seg) (s : State) :
    ensureBuilt remote id seg (ensureBuilt remote id seg s) =
      ensureBuilt remote id seg s := by
  by_cases hb : (alookup id s.trees).isSome = true
  · simp [ensureBuilt, hb]
  · simp only [ensureBuilt, if_neg hb]
    simp [constructTreeDict_trees_built]

theorem ensureBuilt_built (remote : Remote) (id : Nat) (seg : Seg)
    (s : State) : (alookup id (ensureBuilt remote id seg s).trees).isSome := by
  by_cases hb : (alookup id s.trees).isSome = true
  · simp [ensureBuilt, hb]
  · simp only [ensureBuilt, if_neg hb]
    exact constructTreeDict_trees_built remote id seg s

theorem ensureBuilt_infos (remote : Remote) (id : Nat) (seg : Seg)
    (s : State) : (ensureBuilt remote id seg s).infos = s.infos := by
  unfold ensureBuilt
  split <;> rfl

theorem checkRessource_eq (remote : Remote) (cat : Catalog) (s : State)
    (p : PathParts) (id : Nat) (seg : Seg)
    (hres : resolveP cat p = (some id, some seg)) :
    checkRessource remote cat s p =
      .ok ((alookup (PyKey.str (renderParts p))
          ((alookup id (ensureBuilt remote id seg s).trees).getD [])).isSome,
        ensureBuilt remote id seg s) := by
  unfold checkRessource
  rw [hres]
  rfl

theorem isdir_snd_cases (remote : Remote) (cat : Catalog) (s : State)
    (q : PathParts) (id : Nat) (seg : Seg)
    (hres : resolveP cat q = (some id, some seg)) :
    (isdir remote cat s q).2 = s ∨
    (isdir remote cat s q).2 = ensureBuilt remote id seg s := by
  unfold isdir
  by_cases hc : (alookup q cat.entries).isSome = true
  · left; simp [hc]
  · right
    rw [if_neg (by simpa using hc), hres]
    simp only [Option.getD_some]
    cases h2 : alookup (PyKey.path q)
        ((alookup id (ensureBuilt remote id seg s).trees).getD []) <;>
      simp [h2]

/-- The tree dict committed for a repository by `_construct_tree_dict`. -/
def builtTree (remote : Remote) (id : Nat) (seg : Seg) : RepoTree :=
  upsert (PyKey.path [seg]) ⟨true, seg⟩
    ((remote.tree id).foldl
      (fun d e => upsert (PyKey.path (seg :: e.path)) ⟨e.ty = "tree", e.name⟩ d)
      [])

theorem constructTreeDict_tree_lookup (remote : Remote) (id : Nat) (seg : Seg)
    (s : State) :
    alookup id (constructTreeDict remote id seg s).trees =
      some (builtTree remote id seg) := by
  simp only [constructTreeDict, builtTree]
  exact alookup_upsert_self id _ s.trees

theorem builtTree_no_path (remote : Remote) (id : Nat) (seg : Seg)
    (p : PathParts) (hroot : [seg] ≠ p)
    (hremote : ∀ e ∈ remote.tree id, seg :: e.path ≠ p) :
    alookup (PyKey.path p) (builtTree remote id seg) = none := by
  unfold builtTree
  rw [alookup_upsert_ne _ _ (fun e => hroot (by injection e))]
  rw [alookup_foldl_preserve (PyKey.path p) _ _ (fun acc e he => by
    exact alookup_upsert_ne _ _ (fun hk => hremote e he (by injection hk)))]
  rfl

theorem builtTree_no_str (remote : Remote) (id : Nat) (seg : Seg)
    (q : String) :
    alookup (PyKey.str q) (builtTree remote id seg) = none := by
  unfold builtTree
  rw [alookup_upsert_ne _ _ (fun e => PyKey.noConfusion e)]
  rw [alookup_foldl_preserve (PyKey.str q) _ _ (fun acc e _ => by
    exact alookup_upsert_ne _ _ (fun hk => PyKey.noConfusion hk))]
  rfl

end Fs

namespace Fs

theorem upload_ok_state (remote : Remote) (cat : Catalog) (s : State)
    (p : PathParts) (id : Nat) (seg : Seg)
    (hresp : resolveP cat p = (some id, some seg))
    (hrespar : resolveP cat (normParts (pyParent p)) = (some id, some seg)) :
    ∀ s', upload remote cat s p = .ok s' →
      s' = ensureBuilt remote id seg s := by
  intro s' hok
  simp only [upload] at hok
  split at hok
  · exact absurd hok (by simp)
  · rw [checkRessource_eq remote cat _ p id seg hresp] at hok
    simp only [hresp] at hok
    split at hok
    · exact absurd hok (by simp)
    · replace hok := (Except.ok.inj hok).symm
      rcases isdir_snd_cases remote cat s (normParts (pyParent p)) id seg
        hrespar with h2 | h2
      · rw [h2] at hok
        exact hok
      · rw [h2, ensureBuilt_idem] at hok
        exact hok

theorem gather_mem (cat : Catalog) (tree : RepoTree) (par : PathParts)
    (pth : PathParts) (hm : pth ∈ gatherFilePaths cat tree par) :
    (∃ kv ∈ cat.entries, kv.1 = pth) ∨ pth = par ∨
      (∃ kv ∈ tree, kv.1 = PyKey.path pth) := by
  unfold gatherFilePaths at hm
  split at hm
  · left
    rcases List.mem_filterMap.mp hm with ⟨kv, hkv, he⟩
    refine ⟨kv, hkv, ?_⟩
    by_cases h : kv.1 ≠ ["/"]
    · rw [if_pos h] at he
      exact Option.some.inj he
    · rw [if_neg h] at he
      simp at he
  · split at hm
    · right; left
      simpa using hm
    · right; right
      rcases List.mem_filterMap.mp hm with ⟨kv, hkv, he⟩
      obtain ⟨k1, v1⟩ := kv
      refine ⟨(k1, v1), hkv, ?_⟩
      cases k1 with
      | str q => simp at he
      | path pth2 =>
        change (if pyParent pth2 = par ∧ ¬(v1.isDir = true) then some pth2
          else none) = some pth at he
        split at he
        · exact congrArg PyKey.path (Option.some.inj he)
        · simp at he

theorem buildDirectoryInfo_lookup_preserve (remote : Remote) (cat : Catalog)
    (s : State) (p par : PathParts) (id : Nat) (seg : Seg) (tree : RepoTree)
    (hrespar : resolveP cat par = (some id, some seg))
    (htree : alookup id s.trees = some tree)
    (hnostr : ∀ q, alookup (PyKey.str q) tree = none)
    (hnopath : ∀ kv ∈ tree, kv.1 ≠ PyKey.path p)
    (hcatp : alookup p cat.entries = none)
    (hpar : par ≠ p) :
    buildDirectoryInfo remote cat s par = .error .resourceNotFound ∨
    ∃ s2, buildDirectoryInfo remote cat s par = .ok s2 ∧
      alookup p s2.infos = alookup p s.infos ∧ s2.trees = s.trees ∧
      s2.accessed = s.accessed ∧ s2.fetchCount = s.fetchCount := by
  have hb : (alookup id s.trees).isSome := by rw [htree]; rfl
  have hds := isdir_state_of_built remote cat s par id seg hrespar hb
  by_cases hd : (isdir remote cat s par).1 = true
  · right
    simp only [buildDirectoryInfo, hds, hd, not_true, Bool.true_eq_false,
      reduceIte]
    rw [hrespar]
    simp only [Option.getD_some, ensureBuilt, if_pos hb]
    rw [htree]
    simp only [Option.getD_some]
    refine ⟨_, rfl, ?_, rfl, rfl, rfl⟩
    rw [alookup_foldl_preserve p _ _ ?hfile]
    · rw [alookup_foldl_preserve p _ _ ?hdir]
      case hdir =>
        intro acc kv hkv
        cases hk : kv.1 with
        | str q => simp
        | path pth =>
          have hne : pth ≠ p := by
            intro e
            exact hnopath kv hkv (by rw [hk, e])
          simp only [hk]
          split
          · exact alookup_upsert_ne _ _ hne
          · rfl
    case hfile =>
      intro acc pth hpth
      have hne : pth ≠ p := by
        rcases gather_mem cat tree par pth hpth with ⟨kv, hkv, he⟩ | he |
          ⟨kv, hkv, he⟩
        · intro e
          exact alookup_none_forall hcatp kv hkv (he.trans e)
        · intro e
          exact hpar (e ▸ he.symm)
        · intro e
          exact hnopath kv hkv (by rw [he, e])
      exact alookup_upsert_ne _ _ hne
  · left
    simp only [buildDirectoryInfo, hds, hd]
    rw [checkRessource_of_built remote cat s par id seg hrespar hb]
    rw [htree]
    simp [hnostr]

theorem isdir_false_of_absent (remote : Remote) (cat : Catalog) (s : State)
    (p : PathParts) (id : Nat) (seg : Seg) (tree : RepoTree)
    (hresp : resolveP cat p = (some id, some seg))
    (htree : alookup id s.trees = some tree)
    (hpcat : alookup p cat.entries = none)
    (hnopathp : alookup (PyKey.path p) tree = none) :
    isdir remote cat s p = (false, s) := by
  have hb : (alookup id s.trees).isSome := by rw [htree]; rfl
  unfold isdir
  rw [if_neg (by simp [hpcat]), hresp]
  simp only [Option.getD_some, ensureBuilt, if_pos hb]
  rw [htree]
  simp [hnopathp]

theorem normParts_pyParent_ne (p : PathParts) (hlen : 2 ≤ p.length) :
    normParts (pyParent p) ≠ p := by
  have h1 : p ≠ ["/"] := by
    intro e
    rw [e] at hlen
    simp at hlen
  unfold normParts pyParent
  rw [if_neg h1]
  by_cases h2 : p.dropLast = []
  · rw [if_pos h2]
    intro e
    rw [← e] at hlen
    simp at hlen
  · rw [if_neg h2]
    intro e
    have h3 := congrArg List.length e
    rw [List.length_dropLast] at h3
    omega

theorem getinfo_notfound_of (remote : Remote) (cat : Catalog) (s : State)
    (p : PathParts) (id : Nat) (seg : Seg) (tree : RepoTree)
    (hlen : 2 ≤ p.length)
    (hresp : resolveP cat p = (some id, some seg))
    (hrespar : resolveP cat (normParts (pyParent p)) = (some id, some seg))
    (htree : alookup id s.trees = some tree)
    (hacc : id ∈ s.accessed)
    (hpcat : alookup p cat.entries = none)
    (hnopathp : alookup (PyKey.path p) tree = none)
    (hnostr : ∀ q, alookup (PyKey.str q) tree = none)
    (hinfo : alookup p s.infos = none) :
    getinfo remote cat s p = .error .resourceNotFound := by
  have hnopath : ∀ kv ∈ tree, kv.1 ≠ PyKey.path p := alookup_none_forall hnopathp
  have hisd := isdir_false_of_absent remote cat s p id seg tree hresp htree
    hpcat hnopathp
  have hparne := normParts_pyParent_ne p hlen
  simp only [getinfo]
  rw [if_neg (by omega : ¬ p.length = 1), hresp]
  simp only [ensureBuiltAcc, if_pos hacc]
  rw [hinfo]
  simp only [hisd, Bool.false_eq_true, reduceIte]
  rcases buildDirectoryInfo_lookup_preserve remote cat s p
      (normParts (pyParent p)) id seg tree hrespar htree hnostr hnopath hpcat
      hparne with h | ⟨s2, hbd, hpres, _, _, _⟩
  · rw [h]
  · rw [hbd]
    simp [hpres, hinfo]

end Fs

/-- C10 counterexample: the claim as stated fails when the repository tree
was not yet cached and the remote listing already contains the target path.
Here the caches hold no entry for `A/sub/f.txt` (the tree cache is empty),
yet a successful `upload` of that path triggers the lazy tree build during
its parent check, after which the tree cache does contain an entry for the
path (and `getinfo` on it would succeed). -/
theorem c10_upload_publishes_tree_counterexample :
    alookup 1 fsInit.trees = none ∧
    alookup ["A", "sub", "f.txt"] fsInit.infos = none ∧
    (Fs.upload fsRemote fsCat fsInit ["A", "sub", "f.txt"]).map
      (fun s' => alookup (Fs.PyKey.path ["A", "sub", "f.txt"])
        ((alookup 1 s'.trees).getD [])) = .ok (some ⟨false, "f.txt"⟩) := by
  refine ⟨rfl, rfl, ?_⟩
  rfl

/-- C10 (amended): for every successful `upload(path, file)` call on a path
absent from the caches AND absent from the repository's remote tree listing
(a genuinely new file), no entry for that path is added to the repository
tree cache or the info cache: immediately afterwards the existence check
(`_check_ressource`) still returns `False` and `getinfo` still fails with
`ResourceNotFound` — the uploaded file only exists on the remote working
branch.  (Without the remote-absence condition the claim fails: see the
counterexample, where the lazy tree build performed during `upload` itself
publishes the path into the tree cache.) -/
theorem c10_upload_frame_amended (remote : Fs.Remote) (cat : Fs.Catalog)
    (s : Fs.State) (p : Fs.PathParts) (id : Nat) (seg : Fs.Seg)
    (hlen : 2 ≤ p.length)
    (hhead : p.head? = some seg)
    (hcat : alookup [seg] cat.entries = some (some id))
    (hpcat : alookup p cat.entries = none)
    (hsync : (alookup id s.trees).isSome = true → id ∈ s.accessed)
    (htreeNone : ∀ tree, alookup id s.trees = some tree →
      alookup (Fs.PyKey.path p) tree = none ∧
      ∀ q, alookup (Fs.PyKey.str q) tree = none)
    (hremote : ∀ e ∈ remote.tree id, seg :: e.path ≠ p)
    (hinfo : alookup p s.infos = none) :
    ∀ s', Fs.upload remote cat s p = .ok s' →
      (∀ tree', alookup id s'.trees = some tree' →
        alookup (Fs.PyKey.path p) tree' = none) ∧
      alookup p s'.infos = none ∧
      Fs.checkRessource remote cat s' p = .ok (false, s') ∧
      Fs.getinfo remote cat s' p = .error .resourceNotFound := by
  have hresp : Fs.resolveP cat p = (some id, some seg) := by
    simp [Fs.resolveP, hhead, hcat]
  have hparhead : (Fs.normParts (Fs.pyParent p)).head? = some seg := by
    obtain ⟨a, q, rfl⟩ : ∃ a q, p = a :: q := by
      cases p with
      | nil => simp at hlen
      | cons a q => exact ⟨a, q, rfl⟩
    obtain ⟨b, t, rfl⟩ : ∃ b t, q = b :: t := by
      cases q with
      | nil => simp at hlen
      | cons b t => exact ⟨b, t, rfl⟩
    have hne : (a :: b :: t) ≠ ["/"] := by simp
    simp only [Fs.pyParent, if_neg hne,
      (rfl : (a :: b :: t).dropLast = a :: (b :: t).dropLast)]
    simp only [Fs.normParts]
    rw [if_neg (by simp)]
    simpa using hhead
  have hrespar : Fs.resolveP cat (Fs.normParts (Fs.pyParent p)) =
      (some id, some seg) := by
    simp [Fs.resolveP, hparhead, hcat]
  intro s' hok
  have hs' := Fs.upload_ok_state remote cat s p id seg hresp hrespar s' hok
  have hroot : [seg] ≠ p := by
    intro e
    have h2 := congrArg List.length e
    simp at h2
    omega
  by_cases hb : (alookup id s.trees).isSome = true
  · have hs'2 : s' = s := by rw [hs']; simp [Fs.ensureBuilt, hb]
    subst hs'2
    obtain ⟨tree, htree⟩ := Option.isSome_iff_exists.mp hb
    obtain ⟨hnp, hns⟩ := htreeNone tree htree
    refine ⟨?_, hinfo, ?_, ?_⟩
    · intro tree' htr'
      rw [htree] at htr'
      rw [← Option.some.inj htr']
      exact hnp
    · have h3 := Fs.checkRessource_of_built remote cat s' p id seg hresp hb
      rw [htree] at h3
      simpa [hns] using h3
    · exact Fs.getinfo_notfound_of remote cat s' p id seg tree hlen hresp
        hrespar htree (hsync hb) hpcat hnp hns hinfo
  · have hs'2 : s' = Fs.constructTreeDict remote id seg s := by
      rw [hs']; simp [Fs.ensureBuilt, hb]
    subst hs'2
    have htree' := Fs.constructTreeDict_tree_lookup remote id seg s
    have hnp := Fs.builtTree_no_path remote id seg p hroot hremote
    have hns := Fs.builtTree_no_str remote id seg
    refine ⟨?_, hinfo, ?_, ?_⟩
    · intro tree' htr'
      rw [htree'] at htr'
      rw [← Option.some.inj htr']
      exact hnp
    · have hb' := Fs.constructTreeDict_trees_built remote id seg s
      have h3 := Fs.checkRessource_of_built remote cat
        (Fs.constructTreeDict remote id seg s) p id seg hresp hb'
      rw [htree'] at h3
      simpa [hns] using h3
    · exact Fs.getinfo_notfound_of remote cat
        (Fs.constructTreeDict remote id seg s) p id seg
        (Fs.builtTree remote id seg) hlen hresp hrespar htree'
        (Fs.constructTreeDict_accessed remote id seg s) hpcat hnp hns hinfo

theorem c10_upload_frame_amended_witness :
    ∃ s', Fs.upload fsRemote fsCat fsInit ["A", "sub", "new.txt"] = .ok s' ∧
      ((∀ tree', alookup 1 s'.trees = some tree' →
          alookup (Fs.PyKey.path ["A", "sub", "new.txt"]) tree' = none) ∧
        alookup ["A", "sub", "new.txt"] s'.infos = none ∧
        Fs.checkRessource fsRemote fsCat s' ["A", "sub", "new.txt"] =
          .ok (false, s') ∧
        Fs.getinfo fsRemote fsCat s' ["A", "sub", "new.txt"] =
          .error .resourceNotFound) := by
  refine ⟨Fs.constructTreeDict fsRemote 1 "A" fsInit, by rfl, ?_⟩
  exact c10_upload_frame_amended fsRemote fsCat fsInit ["A", "sub", "new.txt"]
    1 "A" (by decide) (by rfl) (by rfl) (by rfl)
    (by intro h; simp [fsInit, alookup] at h)
    (by intro tree h; simp [fsInit, alookup] at h)
    (by intro e he; simp [fsRemote] at he; rcases he with rfl | rfl <;> decide)
    (by rfl)
    (Fs.constructTreeDict fsRemote 1 "A" fsInit) (by rfl)

theorem c9_makedir_amended_witness :
    Fs.makedir fsRemote fsCat fsBuilt ["A", "sub"] false =
      .error .directoryExists ∧
    ∃ s' : Fs.State, Fs.makedir fsRemote fsCat fsBuilt ["A", "sub"] true =
        .ok (s', ["A", "sub"]) ∧
      s'.trees = fsBuilt.trees ∧ s'.accessed = fsBuilt.accessed ∧
      s'.fetchCount = fsBuilt.fetchCount :=
  c9_makedir_amended fsRemote fsCat fsBuilt ["A", "sub"] 1 "A" "sub"
    [(Fs.PyKey.path ["A", "sub"], ⟨true, "sub"⟩),
     (Fs.PyKey.path ["A", "sub", "f.txt"], ⟨false, "f.txt"⟩),
     (Fs.PyKey.path ["A"], ⟨true, "A"⟩)]
    (by rfl) (by rfl) (by rfl) (by rfl)
